import Mathlib

/-
Verification of the streamed chat-response handler of the MULTI-PDF-CHATBOT-RAG
frontend (`handleAsk` in `src/frontend/src/components/VoiceOutput.js`, ChatBox
component, together with `apiStream` in `src/frontend/src/config.js`).

Text is modelled as `List Char` (the decoded character stream; the JS
`TextDecoder` with `stream: true` reassembles split UTF-8 sequences, so a
"chunk" here is the decoded text of one `reader.read()` value, which may be
empty when a read delivers only part of a multi-byte character).
-/

abbrev Str := List Char

def strL (s : String) : Str := s.data

/-- The in-band sentinel literal `---__CITATIONS__---` from the source. -/
def sentinel : Str := strL "---__CITATIONS__---"

/-- If `sep` is a leading match of `l`, return the remainder of `l` after it. -/
def chop : Str → Str → Option Str
  | [], l => some l
  | _ :: _, [] => none
  | a :: s, b :: l => if a = b then chop s l else none

/-- Substring containment, the model of JS `String.prototype.includes`. -/
def hasSeq (sep : Str) : Str → Bool
  | [] => (chop sep []).isSome
  | c :: rest => (chop sep (c :: rest)).isSome || hasSeq sep rest

/-- Left-to-right split on every non-overlapping occurrence of `sentinel`,
the model of JS `String.prototype.split(sentinel)`.  The fuel argument only
bounds the recursion; `jsSplit` supplies enough for it never to run out. -/
def splitFuel : Nat → Str → Str → List Str
  | _, [], acc => [acc.reverse]
  | 0, l, acc => [acc.reverse ++ l]
  | fuel + 1, c :: rest, acc =>
    match chop sentinel (c :: rest) with
    | some rem => acc.reverse :: splitFuel fuel rem []
    | none => splitFuel fuel rest (c :: acc)

def jsSplit (l : Str) : List Str := splitFuel l.length l []

/-- The JS whitespace class used by `String.prototype.trim`
(WhiteSpace and LineTerminator code points). -/
def jsWs (c : Char) : Bool :=
  c = ' ' || c = '\t' || c = '\n' || c = '\r' || c = '\x0b' || c = '\x0c' ||
  c = '\u00a0' || c = '\ufeff' || c = '\u1680' ||
  (0x2000 ≤ c.toNat && c.toNat ≤ 0x200a) ||
  c = '\u2028' || c = '\u2029' || c = '\u202f' || c = '\u205f' || c = '\u3000'

/-- The model of JS `String.prototype.trim`. -/
def jsTrim (l : Str) : Str :=
  ((l.dropWhile jsWs).reverse.dropWhile jsWs).reverse

/-
Values produced by JS `JSON.parse`.  A number literal is kept exactly as
`mantissa * 10 ^ exponent`; the payloads this application compares are small
integers, for which the JS float64 conversion is exact.  Object fields keep
source order, as JS objects do.
-/
inductive Json where
  | null
  | bool (b : Bool)
  | num (mantissa : Int) (exponent : Int)
  | str (s : Str)
  | arr (elems : List Json)
  | obj (fields : List (Str × Json))

/-- JSON whitespace (ECMA-404: space, tab, line feed, carriage return). -/
def jsonWs (c : Char) : Bool :=
  c = ' ' || c = '\t' || c = '\n' || c = '\r'

def skipWs (l : Str) : Str := l.dropWhile jsonWs

def isDigit (c : Char) : Bool := 47 < c.toNat && c.toNat < 58

def digitVal (c : Char) : Nat := c.toNat - 48

def takeDigits : Str → (List Nat × Str)
  | [] => ([], [])
  | c :: rest =>
    if isDigit c then
      let p := takeDigits rest
      (digitVal c :: p.1, p.2)
    else ([], c :: rest)

def digitsToNat (ds : List Nat) : Nat := ds.foldl (fun a d => a * 10 + d) 0

def hexVal (c : Char) : Option Nat :=
  let n := c.toNat
  if isDigit c then some (n - 48)
  else if 96 < n && n < 103 then some (n - 87)
  else if 64 < n && n < 71 then some (n - 55)
  else none

/-- JSON number grammar: `-? (0 | [1-9][0-9]*) (. [0-9]+)? ([eE][+-]?[0-9]+)?`.
Returns `(mantissa, exponent)` and the unconsumed input. -/
def parseNumber (s : Str) : Option ((Int × Int) × Str) :=
  let signed : Bool × Str :=
    if s.headD ' ' = '-' then (true, s.tail) else (false, s)
  let intPart : Option (List Nat × Str) :=
    match signed.2 with
    | '0' :: r => some ([0], r)
    | c :: r =>
      if isDigit c then
        let p := takeDigits r
        some (digitVal c :: p.1, p.2)
      else none
    | [] => none
  match intPart with
  | none => none
  | some (ids, s2) =>
    let fracPart : Option (List Nat × Str) :=
      match s2 with
      | '.' :: r =>
        let p := takeDigits r
        if p.1 = [] then none else some p
      | _ => some ([], s2)
    match fracPart with
    | none => none
    | some (fds, s3) =>
      let expPart : Option (Int × Str) :=
        match s3 with
        | c :: r =>
          if c = 'e' || c = 'E' then
            let se : Int × Str :=
              if r.headD ' ' = '+' then (1, r.tail)
              else if r.headD ' ' = '-' then (-1, r.tail)
              else (1, r)
            let p := takeDigits se.2
            if p.1 = [] then none else some (se.1 * digitsToNat p.1, p.2)
          else some (0, s3)
        | [] => some (0, [])
      match expPart with
      | none => none
      | some (e, s4) =>
        let mag : Int := Int.ofNat (digitsToNat (ids ++ fds))
        let m : Int := if signed.1 then -mag else mag
        some ((m, e - Int.ofNat fds.length), s4)

/-- Body of a JSON string, after the opening quote; returns the decoded
characters and the input after the closing quote.  A `\uXXXX` escape naming a
surrogate code unit has no `Char` counterpart (Lean chars are Unicode scalar
values, JS strings are UTF-16); such an escape is mapped to U+FFFD, a boundary
of the embedding never exercised by this application's payloads. -/
def parseStringBody : Str → Option (Str × Str)
  | [] => none
  | '"' :: rest => some ([], rest)
  | '\\' :: esc =>
    match esc with
    | 'u' :: h1 :: h2 :: h3 :: h4 :: rest =>
      match hexVal h1, hexVal h2, hexVal h3, hexVal h4 with
      | some a, some b, some c, some d =>
        let n := ((a * 16 + b) * 16 + c) * 16 + d
        let ch := if 0xd800 ≤ n && n ≤ 0xdfff then '\ufffd' else Char.ofNat n
        match parseStringBody rest with
        | some (cs, r) => some (ch :: cs, r)
        | none => none
      | _, _, _, _ => none
    | c :: rest =>
      let decoded : Option Char :=
        if c = '"' then some '"'
        else if c = '\\' then some '\\'
        else if c = '/' then some '/'
        else if c = 'b' then some '\x08'
        else if c = 'f' then some '\x0c'
        else if c = 'n' then some '\n'
        else if c = 'r' then some '\r'
        else if c = 't' then some '\t'
        else none
      match decoded with
      | none => none
      | some ch =>
        match parseStringBody rest with
        | some (cs, r) => some (ch :: cs, r)
        | none => none
    | [] => none
  | c :: rest =>
    if c.toNat < 0x20 then none
    else
      match parseStringBody rest with
      | some (cs, r) => some (c :: cs, r)
      | none => none

mutual

/-- A JSON value; the input must already start at the value (no leading
whitespace).  Fuel bounds the nesting recursion. -/
def parseValue : Nat → Str → Option (Json × Str)
  | 0, _ => none
  | fuel + 1, s =>
    if let some rest := chop (strL "null") s then some (Json.null, rest)
    else if let some rest := chop (strL "true") s then some (Json.bool true, rest)
    else if let some rest := chop (strL "false") s then some (Json.bool false, rest)
    else match s with
    | '"' :: rest =>
      match parseStringBody rest with
      | some (cs, r) => some (Json.str cs, r)
      | none => none
    | '[' :: rest =>
      match skipWs rest with
      | ']' :: r => some (Json.arr [], r)
      | s2 =>
        match parseElems fuel s2 with
        | some (vs, r) => some (Json.arr vs, r)
        | none => none
    | '{' :: rest =>
      match skipWs rest with
      | '}' :: r => some (Json.obj [], r)
      | s2 =>
        match parseMembers fuel s2 with
        | some (ms, r) => some (Json.obj ms, r)
        | none => none
    | _ =>
      match parseNumber s with
      | some (me, r) => some (Json.num me.1 me.2, r)
      | none => none

/-- One or more array elements followed by `]`. -/
def parseElems : Nat → Str → Option (List Json × Str)
  | 0, _ => none
  | fuel + 1, s =>
    match parseValue fuel s with
    | none => none
    | some (v, rest) =>
      match skipWs rest with
      | ']' :: r => some ([v], r)
      | ',' :: r =>
        match parseElems fuel (skipWs r) with
        | some (vs, r2) => some (v :: vs, r2)
        | none => none
      | _ => none

/-- One or more object members followed by a closing brace. -/
def parseMembers : Nat → Str → Option (List (Str × Json) × Str)
  | 0, _ => none
  | fuel + 1, s =>
    match s with
    | '"' :: rest =>
      match parseStringBody rest with
      | none => none
      | some (key, r1) =>
        match skipWs r1 with
        | ':' :: r2 =>
          match parseValue fuel (skipWs r2) with
          | none => none
          | some (v, r3) =>
            match skipWs r3 with
            | '}' :: r4 => some ([(key, v)], r4)
            | ',' :: r4 =>
              match parseMembers fuel (skipWs r4) with
              | some (ms, r5) => some ((key, v) :: ms, r5)
              | none => none
            | _ => none
        | _ => none
    | _ => none

end

/-- The model of JS `JSON.parse`: one value, with surrounding whitespace,
and nothing after it.  The fuel `2 * length + 4` dominates the recursion
depth, which grows by at most two per consumed character. -/
def parseJson (s : Str) : Option Json :=
  match parseValue (2 * s.length + 4) (skipWs s) with
  | some (v, rest) => if skipWs rest = [] then some v else none
  | none => none

/-
The read loop of `handleAsk` (VoiceOutput.js, ChatBox, lines 149-173):

    let buffer = ""; let citationsData = "";
    while (true) {
      const { done, value } = await reader.read();
      if (done) break;
      buffer += decoder.decode(value, { stream: true });
      if (buffer.includes("---__CITATIONS__---")) {
        const parts = buffer.split("---__CITATIONS__---");
        botMessage.text = parts[0] || "";
        citationsData = parts[1]?.trim() || "";
        break;
      }
      botMessage.text = buffer;
      setMessages(prev => ...replace last with a copy of botMessage...);
      await new Promise(resolve => setTimeout(resolve, 10));
    }

`emitted` collects the texts written by the in-loop `setMessages` calls, in
order; `text` and `citationsData` are the values of `botMessage.text` and
`citationsData` when the loop ends; `found` records whether the sentinel
branch ran.  Note that the sentinel branch exits the loop without reading any
remaining chunks of the stream.
-/
structure LoopOut where
  emitted : List Str
  text : Str
  citationsData : Str
  found : Bool

def readLoopAux : List Str → Str → LoopOut
  | [], buffer => ⟨[], buffer, [], false⟩
  | c :: rest, buffer =>
    let buf := buffer ++ c
    if hasSeq sentinel buf then
      let parts := jsSplit buf
      ⟨[], parts.headD [], jsTrim (parts.getD 1 []), true⟩
    else
      let r := readLoopAux rest buf
      ⟨buf :: r.emitted, r.text, r.citationsData, r.found⟩

/-- The initial value of `botMessage.citations` (`citations: []`). -/
def emptyCits : Json := Json.arr []

/-
Citation finalization (lines 175-181):

    if (citationsData) {
      try { botMessage.citations = JSON.parse(citationsData); }
      catch (e) { console.error("Failed to parse citations", e); }
    }

The second component records whether the guarded block ran, i.e. whether a
parse was attempted at all.
-/
def finalCitations (cd : Str) : Json × Bool :=
  if cd = [] then (emptyCits, false)
  else
    match parseJson cd with
    | some v => (v, true)
    | none => (emptyCits, true)

/-- One rendered state of the assistant message: the `text`/`citations` pair
the component writes into the message list. -/
structure Snapshot where
  text : Str
  citations : Json

/-- The final emitted snapshot of the assistant message, after the loop and
the citation-finalization block (the `setMessages` at lines 183-187). -/
def finalSnap (chunks : List Str) : Snapshot :=
  let r := readLoopAux chunks []
  ⟨r.text, (finalCitations r.citationsData).1⟩

/-- Every emitted state of the assistant message, in order: its creation with
empty text (line 147), one snapshot per chunk processed without the sentinel,
and the final snapshot. -/
def snapshots (chunks : List Str) : List Snapshot :=
  let r := readLoopAux chunks []
  ⟨[], emptyCits⟩ :: r.emitted.map (fun t => ⟨t, emptyCits⟩) ++ [finalSnap chunks]

/-
Chat-state level model of `handleAsk`.  A message's absent `citations` field
(the user message literal has none) is modelled as the empty list, matching
the application's own canonicalization (`m.citations || []` in
`handleSaveChat`).  Timestamps are not modelled.
-/
structure Message where
  sender : Str
  text : Str
  citations : Json

structure ChatState where
  messages : List Message
  loading : Bool
  question : Str

/-- JS truthiness test of the `sessionId` guard: `null`/`undefined` (here
`none`) and the empty string are falsy. -/
def jsFalsy : Option Str → Bool
  | none => true
  | some s => s.isEmpty

/-- How one call to `handleAsk` interacts with the transport:
`ok` - `apiStream` returned, the body stream delivered `chunks`, then `done`;
`noBody` - `response.body` was null, so line 141 threw;
`httpErr` - `apiStream` saw a non-ok status and threw (config.js lines 57-60);
`netErr` - `fetch` itself (or decoding) threw with the given message;
`readErr` - `reader.read()` threw after the given chunks were delivered. -/
inductive Outcome where
  | ok (chunks : List Str)
  | noBody
  | httpErr (status : Nat) (errText : Str)
  | netErr (msg : Str)
  | readErr (delivered : List Str) (msg : Str)

/-- The `err.message` the catch block interpolates, per outcome. -/
def errMessageText : Outcome → Str
  | Outcome.noBody => strL "No response body"
  | Outcome.httpErr status errText =>
      strL "Server error: " ++ strL (Nat.repr status) ++ strL " - " ++ errText
  | Outcome.netErr m => m
  | Outcome.readErr _ m => m
  | Outcome.ok _ => []

/-- The error entry appended by the catch block (lines 191-194). -/
def errEntry (m : Str) : Message := ⟨strL "AI", strL "Error: " ++ m, emptyCits⟩

structure AskResult where
  state : ChatState
  requested : Bool

/-- The model of `handleAsk` (lines 123-199): guards, the user-message append,
the streaming loop, finalization, and the catch/finally blocks.  `requested`
records whether the `apiStream` network request was issued.  The message list
is the final value of the `messages` state; each `setMessages` during the
stream replaced the last entry in place, so on a mid-stream failure the bot
entry still holds the last text emitted before the failure. -/
def handleAsk (sessionId : Option Str) (outcome : Outcome) (st : ChatState) :
    AskResult :=
  if jsFalsy sessionId then ⟨st, false⟩
  else if jsTrim st.question = [] then ⟨st, false⟩
  else
    let msgs1 := st.messages ++ [⟨strL "You", st.question, emptyCits⟩]
    match outcome with
    | Outcome.ok chunks =>
      let r := readLoopAux chunks []
      ⟨⟨msgs1 ++ [⟨strL "AI", r.text, (finalCitations r.citationsData).1⟩],
        false, []⟩, true⟩
    | Outcome.readErr delivered m =>
      let r := readLoopAux delivered []
      ⟨⟨msgs1 ++ [⟨strL "AI", r.emitted.getLastD [], emptyCits⟩, errEntry m],
        false, []⟩, true⟩
    | o => ⟨⟨msgs1 ++ [errEntry (errMessageText o)], false, []⟩, true⟩

def concatStr (chunks : List Str) : Str := chunks.foldr (fun a b => a ++ b) []

/-- Interleave the parts with the sentinel; the left inverse of the split. -/
def sepJoin : List Str → Str
  | [] => []
  | [p] => p
  | p :: q :: rest => p ++ sentinel ++ sepJoin (q :: rest)

/-- The successive values of the `buffer` variable, one per chunk. -/
def accBuffers : Str → List Str → List Str
  | _, [] => []
  | b, c :: rest => (b ++ c) :: accBuffers (b ++ c) rest

/-- `b` extends `a`: `b` begins with `a` (prefix-extension of snapshot texts). -/
def extOf (a b : Str) : Prop := ∃ t : Str, b = a ++ t

theorem chop_append : ∀ s l r : Str, chop s l = some r → s ++ r = l := by
  intro s
  induction s with
  | nil => intro l r h; simp [chop] at h; simp [h]
  | cons a s ih =>
    intro l r h
    cases l with
    | nil => simp [chop] at h
    | cons b l =>
      simp only [chop] at h
      by_cases hab : a = b
      · rw [if_pos hab] at h
        subst hab
        simpa using ih l r h
      · rw [if_neg hab] at h
        exact absurd h (by simp)

theorem chop_extend : ∀ s l r e : Str, chop s l = some r →
    chop s (l ++ e) = some (r ++ e) := by
  intro s
  induction s with
  | nil => intro l r e h; simp [chop] at h ⊢; simp [h]
  | cons a s ih =>
    intro l r e h
    cases l with
    | nil => simp [chop] at h
    | cons b l =>
      simp only [chop] at h ⊢
      by_cases hab : a = b
      · rw [if_pos hab] at h ⊢
        exact ih l r e h
      · rw [if_neg hab] at h
        exact absurd h (by simp)

theorem sentinel_ne : sentinel ≠ [] := by decide

theorem chop_nil_of_ne : ∀ s : Str, s ≠ [] → chop s [] = none := by
  intro s h
  cases s with
  | nil => exact absurd rfl h
  | cons a s => simp [chop]

theorem hasSeq_append (sep : Str) : ∀ l e : Str, hasSeq sep l = true →
    hasSeq sep (l ++ e) = true := by
  intro l
  induction l with
  | nil =>
    intro e h
    simp only [hasSeq] at h
    cases hc : chop sep [] with
    | none => rw [hc] at h; simp at h
    | some r =>
      have hsep : sep = [] := by
        cases sep with
        | nil => rfl
        | cons a s => simp [chop] at hc
      subst hsep
      cases e with
      | nil => simpa using h
      | cons c rest => simp [hasSeq, chop]
  | cons c rest ih =>
    intro e h
    simp only [hasSeq] at h ⊢
    rcases Bool.or_eq_true_iff.mp h with h1 | h2
    · cases hc : chop sep (c :: rest) with
      | none => rw [hc] at h1; simp at h1
      | some r =>
        have hce := chop_extend sep (c :: rest) r e hc
        show ((chop sep ((c :: rest) ++ e)).isSome || hasSeq sep (rest ++ e)) = true
        rw [hce]
        simp
    · show ((chop sep ((c :: rest) ++ e)).isSome || hasSeq sep (rest ++ e)) = true
      rw [ih e h2]
      simp

theorem splitFuel_ne : ∀ f : Nat, ∀ l acc : Str, splitFuel f l acc ≠ [] := by
  intro f
  induction f with
  | zero => intro l acc; cases l <;> simp [splitFuel]
  | succ f ih =>
    intro l acc
    cases l with
    | nil => simp [splitFuel]
    | cons c rest =>
      simp only [splitFuel]
      cases chop sentinel (c :: rest) with
      | some rem => simp
      | none => exact ih rest (c :: acc)

theorem splitFuel_noSeq : ∀ l : Str, hasSeq sentinel l = false →
    ∀ (f : Nat) (acc : Str), l.length ≤ f → splitFuel f l acc = [acc.reverse ++ l] := by
  intro l
  induction l with
  | nil => intro _ f acc _; cases f <;> simp [splitFuel]
  | cons c rest ih =>
    intro h f acc hf
    simp only [hasSeq, Bool.or_eq_false_iff] at h
    cases f with
    | zero => simp at hf
    | succ f =>
      simp only [splitFuel]
      cases hc : chop sentinel (c :: rest) with
      | some r => rw [hc] at h; simp at h
      | none =>
        have hrest : rest.length ≤ f := by
          simpa using Nat.le_of_succ_le_succ (by simpa using hf)
        rw [ih h.2 f (c :: acc) hrest]
        simp

theorem jsSplit_noSeq (l : Str) (h : hasSeq sentinel l = false) : jsSplit l = [l] := by
  unfold jsSplit
  simpa using splitFuel_noSeq l h l.length [] (Nat.le_refl _)

theorem chop_length_le : ∀ s l r : Str, chop s l = some r → r.length ≤ l.length := by
  intro s l r h
  have := chop_append s l r h
  subst this
  simp

theorem chop_length_lt : ∀ s l r : Str, s ≠ [] → chop s l = some r →
    r.length < l.length := by
  intro s l r hs h
  have := chop_append s l r h
  subst this
  cases s with
  | nil => exact absurd rfl hs
  | cons a s => simp [Nat.lt_succ_of_le, Nat.le_add_left]

theorem sepJoin_splitFuel : ∀ (f : Nat) (l acc : Str), l.length ≤ f →
    sepJoin (splitFuel f l acc) = acc.reverse ++ l := by
  intro f
  induction f with
  | zero =>
    intro l acc hf
    have : l = [] := List.length_eq_zero.mp (Nat.le_zero.mp hf)
    subst this
    simp [splitFuel, sepJoin]
  | succ f ih =>
    intro l acc hf
    cases l with
    | nil => simp [splitFuel, sepJoin]
    | cons c rest =>
      simp only [splitFuel]
      cases hc : chop sentinel (c :: rest) with
      | some rem =>
        have hlt : rem.length < (c :: rest).length :=
          chop_length_lt sentinel (c :: rest) rem sentinel_ne hc
        have hrem : rem.length ≤ f := Nat.le_of_lt_succ (Nat.lt_of_lt_of_le hlt hf)
        have hjoin := ih rem [] hrem
        show sepJoin (acc.reverse :: splitFuel f rem []) = acc.reverse ++ c :: rest
        cases hsf : splitFuel f rem [] with
        | nil => exact absurd hsf (splitFuel_ne f rem [])
        | cons q qs =>
          rw [hsf] at hjoin
          simp only [List.reverse_nil, List.nil_append] at hjoin
          simp only [sepJoin]
          rw [hjoin]
          have hca := chop_append sentinel (c :: rest) rem hc
          rw [List.append_assoc, hca]
      | none =>
        have hrest : rest.length ≤ f := Nat.le_of_succ_le_succ (by simpa using hf)
        rw [ih rest (c :: acc) hrest]
        simp

theorem sepJoin_jsSplit (l : Str) : sepJoin (jsSplit l) = l := by
  simpa using sepJoin_splitFuel l.length l [] (Nat.le_refl _)

theorem splitFuel_head : ∀ (f : Nat) (l acc : Str), l.length ≤ f →
    hasSeq sentinel l = true →
    ∃ u t : Str, (splitFuel f l acc).headD [] = acc.reverse ++ u ∧
      u ++ sentinel ++ t = l := by
  intro f
  induction f with
  | zero =>
    intro l acc hf hs
    have : l = [] := List.length_eq_zero.mp (Nat.le_zero.mp hf)
    subst this
    simp only [hasSeq, chop_nil_of_ne sentinel sentinel_ne] at hs
    simp at hs
  | succ f ih =>
    intro l acc hf hs
    cases l with
    | nil =>
      simp only [hasSeq, chop_nil_of_ne sentinel sentinel_ne] at hs
      simp at hs
    | cons c rest =>
      simp only [splitFuel]
      cases hc : chop sentinel (c :: rest) with
      | some rem =>
        refine ⟨[], rem, by simp, ?_⟩
        simpa using chop_append sentinel (c :: rest) rem hc
      | none =>
        have h2 : hasSeq sentinel rest = true := by
          simp only [hasSeq, hc] at hs
          simpa using hs
        have hrest : rest.length ≤ f := Nat.le_of_succ_le_succ (by simpa using hf)
        obtain ⟨u, t, h1, h3⟩ := ih rest (c :: acc) hrest h2
        refine ⟨c :: u, t, ?_, ?_⟩
        · rw [h1]; simp
        · simp only [List.cons_append]
          rw [← h3]

theorem jsSplit_head (l : Str) (h : hasSeq sentinel l = true) :
    ∃ t : Str, (jsSplit l).headD [] ++ sentinel ++ t = l := by
  obtain ⟨u, t, h1, h2⟩ := splitFuel_head l.length l [] (Nat.le_refl _) h
  refine ⟨t, ?_⟩
  unfold jsSplit
  rw [h1]
  simpa using h2

theorem concatStr_cons (c : Str) (chunks : List Str) :
    concatStr (c :: chunks) = c ++ concatStr chunks := rfl

theorem readLoop_noSeq : ∀ (chunks : List Str) (buffer : Str),
    hasSeq sentinel (buffer ++ concatStr chunks) = false →
    readLoopAux chunks buffer =
      ⟨accBuffers buffer chunks, buffer ++ concatStr chunks, [], false⟩ := by
  intro chunks
  induction chunks with
  | nil => intro buffer h; simp [readLoopAux, accBuffers, concatStr]
  | cons c rest ih =>
    intro buffer h
    have hassoc : buffer ++ concatStr (c :: rest) = (buffer ++ c) ++ concatStr rest := by
      rw [concatStr_cons, List.append_assoc]
    have hbc : hasSeq sentinel (buffer ++ c) = false := by
      cases hv : hasSeq sentinel (buffer ++ c) with
      | false => rfl
      | true =>
        have ht := hasSeq_append sentinel (buffer ++ c) (concatStr rest) hv
        rw [hassoc, ht] at h
        exact absurd h (by simp)
    have h' : hasSeq sentinel ((buffer ++ c) ++ concatStr rest) = false := by
      rw [← hassoc]; exact h
    simp only [readLoopAux]
    rw [if_neg (by simp [hbc])]
    rw [ih (buffer ++ c) h']
    simp [accBuffers, hassoc]

theorem accBuffers_getLastD : ∀ (chunks : List Str) (b : Str),
    (accBuffers b chunks).getLastD b = b ++ concatStr chunks := by
  intro chunks
  induction chunks with
  | nil => intro b; simp [accBuffers, concatStr]
  | cons c rest ih =>
    intro b
    simp only [accBuffers, List.getLastD_cons]
    rw [ih (b ++ c), concatStr_cons, List.append_assoc]

theorem accBuffers_chain_ext : ∀ (chunks : List Str) (b : Str),
    List.Chain' extOf ((b :: accBuffers b chunks) ++ [b ++ concatStr chunks]) := by
  intro chunks
  induction chunks with
  | nil =>
    intro b
    simp only [accBuffers, concatStr, List.nil_append, List.cons_append]
    exact List.chain'_cons.mpr ⟨⟨[], rfl⟩, List.chain'_singleton _⟩
  | cons c rest ih =>
    intro b
    simp only [accBuffers, concatStr_cons, List.cons_append]
    rw [← List.append_assoc]
    exact List.chain'_cons.mpr ⟨⟨c, rfl⟩, by simpa using ih (b ++ c)⟩

theorem accBuffers_chain_lt : ∀ (chunks : List Str) (b : Str),
    (∀ c ∈ chunks, c ≠ []) →
    List.Chain' (fun x y : Str => x.length < y.length) (b :: accBuffers b chunks) := by
  intro chunks
  induction chunks with
  | nil => intro b _; exact List.chain'_singleton _
  | cons c rest ih =>
    intro b h
    simp only [accBuffers]
    refine List.chain'_cons.mpr ⟨?_, ih (b ++ c) (fun x hx => h x (List.mem_cons_of_mem c hx))⟩
    have hc : c ≠ [] := h c (List.mem_cons_self c rest)
    have : 0 < c.length := List.length_pos.mpr hc
    simp only [List.length_append]
    omega

theorem dw_head (p : Char → Bool) : ∀ (l : Str) (a : Char) (r : Str),
    l.dropWhile p = a :: r → p a = false := by
  intro l
  induction l with
  | nil => intro a r h; simp [List.dropWhile] at h
  | cons x xs ih =>
    intro a r h
    rw [List.dropWhile_cons] at h
    by_cases hx : p x = true
    · rw [if_pos hx] at h; exact ih a r h
    · rw [if_neg hx] at h
      injection h with h1 _
      subst h1
      simpa using hx

theorem dw_self (p : Char → Bool) : ∀ l : Str,
    (∀ a r, l = a :: r → p a = false) → l.dropWhile p = l := by
  intro l h
  cases l with
  | nil => rfl
  | cons a r => rw [List.dropWhile_cons, if_neg (by simp [h a r rfl])]

theorem jsTrim_idem (l : Str) : jsTrim (jsTrim l) = jsTrim l := by
  unfold jsTrim
  set x := l.dropWhile jsWs with hx
  set u := x.reverse.dropWhile jsWs with hu
  have hsplit : u.reverse ++ (x.reverse.takeWhile jsWs).reverse = x := by
    rw [hu, ← List.reverse_append, List.takeWhile_append_dropWhile,
      List.reverse_reverse]
  have hA : u.reverse.dropWhile jsWs = u.reverse := by
    apply dw_self
    intro a r h
    have hx2 : x = a :: (r ++ (x.reverse.takeWhile jsWs).reverse) := by
      conv_lhs => rw [← hsplit]
      rw [h]
      rfl
    exact dw_head jsWs l a _ (hx.symm.trans hx2)
  have hB : u.dropWhile jsWs = u := by
    apply dw_self
    intro a r h
    exact dw_head jsWs x.reverse a r (hu.symm.trans h)
  rw [hA, List.reverse_reverse, hB]

theorem readLoop_cd_trim : ∀ (chunks : List Str) (buffer : Str),
    jsTrim (readLoopAux chunks buffer).citationsData =
      (readLoopAux chunks buffer).citationsData := by
  intro chunks
  induction chunks with
  | nil => intro buffer; rfl
  | cons c rest ih =>
    intro buffer
    simp only [readLoopAux]
    by_cases h : hasSeq sentinel (buffer ++ c) = true
    · rw [if_pos h]
      exact jsTrim_idem _
    · rw [if_neg h]
      exact ih (buffer ++ c)

theorem handleAsk_ok (sid : Str) (st : ChatState) (chunks : List Str)
    (hsid : jsFalsy (some sid) = false) (hq : ¬ jsTrim st.question = []) :
    handleAsk (some sid) (Outcome.ok chunks) st =
      ⟨⟨st.messages ++ [⟨strL "You", st.question, emptyCits⟩,
        ⟨strL "AI", (readLoopAux chunks []).text,
          (finalCitations (readLoopAux chunks []).citationsData).1⟩], false, []⟩,
       true⟩ := by
  unfold handleAsk
  rw [if_neg (by simp [hsid]), if_neg hq]
  simp [List.append_assoc]

theorem handleAsk_readErr (sid : Str) (st : ChatState) (delivered : List Str)
    (m : Str) (hsid : jsFalsy (some sid) = false) (hq : ¬ jsTrim st.question = []) :
    handleAsk (some sid) (Outcome.readErr delivered m) st =
      ⟨⟨st.messages ++ [⟨strL "You", st.question, emptyCits⟩,
        ⟨strL "AI", (readLoopAux delivered []).emitted.getLastD [], emptyCits⟩,
        errEntry m], false, []⟩, true⟩ := by
  unfold handleAsk
  rw [if_neg (by simp [hsid]), if_neg hq]
  simp [List.append_assoc]

theorem handleAsk_noBody (sid : Str) (st : ChatState)
    (hsid : jsFalsy (some sid) = false) (hq : ¬ jsTrim st.question = []) :
    handleAsk (some sid) Outcome.noBody st =
      ⟨⟨st.messages ++ [⟨strL "You", st.question, emptyCits⟩,
        errEntry (strL "No response body")], false, []⟩, true⟩ := by
  unfold handleAsk
  rw [if_neg (by simp [hsid]), if_neg hq]
  simp [List.append_assoc, errMessageText]

theorem handleAsk_httpErr (sid : Str) (st : ChatState) (status : Nat) (body : Str)
    (hsid : jsFalsy (some sid) = false) (hq : ¬ jsTrim st.question = []) :
    handleAsk (some sid) (Outcome.httpErr status body) st =
      ⟨⟨st.messages ++ [⟨strL "You", st.question, emptyCits⟩,
        errEntry (strL "Server error: " ++ strL (Nat.repr status) ++ strL " - " ++ body)],
        false, []⟩, true⟩ := by
  unfold handleAsk
  rw [if_neg (by simp [hsid]), if_neg hq]
  simp [List.append_assoc, errMessageText]

theorem handleAsk_netErr (sid : Str) (st : ChatState) (m : Str)
    (hsid : jsFalsy (some sid) = false) (hq : ¬ jsTrim st.question = []) :
    handleAsk (some sid) (Outcome.netErr m) st =
      ⟨⟨st.messages ++ [⟨strL "You", st.question, emptyCits⟩, errEntry m],
        false, []⟩, true⟩ := by
  unfold handleAsk
  rw [if_neg (by simp [hsid]), if_neg hq]
  simp [List.append_assoc, errMessageText]

theorem readLoop_single_found (s : Str) (hs : hasSeq sentinel s = true) :
    readLoopAux [s] [] =
      ⟨[], (jsSplit s).headD [], jsTrim ((jsSplit s).getD 1 []), true⟩ := by
  simp only [readLoopAux, List.nil_append]
  rw [if_pos hs]

/-- Claim C2 (confirmed): for the single-chunk input
`"The answer is 42.---__CITATIONS__---[{"source":"doc.pdf","page":3,"preview":"..."}]"`
the final emitted snapshot has text `"The answer is 42."` (the portion before
the first sentinel occurrence) and citations equal to the one-element list
parsed from the payload after the sentinel. -/
theorem c2_sentinel_split_correctness :
    finalSnap [strL "The answer is 42.---__CITATIONS__---[\x7b\"source\":\"doc.pdf\",\"page\":3,\"preview\":\"...\"\x7d]"] =
      ⟨strL "The answer is 42.",
       Json.arr [Json.obj [(strL "source", Json.str (strL "doc.pdf")),
         (strL "page", Json.num 3 0),
         (strL "preview", Json.str (strL "..."))]]⟩ := rfl

/-- Claim C6 (confirmed): for every chunk sequence in which the sentinel never
appears, the final snapshot's text equals the full accumulated decoded input
and its citation list is empty. -/
theorem c6_no_sentinel_finalization (chunks : List Str)
    (h : hasSeq sentinel (concatStr chunks) = false) :
    finalSnap chunks = ⟨concatStr chunks, emptyCits⟩ := by
  unfold finalSnap
  rw [readLoop_noSeq chunks [] (by simpa using h)]
  rfl

/-- Witness for C6 at the concrete chunk sequence `["hello ", "world"]`. -/
theorem c6_witness :
    hasSeq sentinel (concatStr [strL "hello ", strL "world"]) = false ∧
    finalSnap [strL "hello ", strL "world"] = ⟨strL "hello world", emptyCits⟩ := by
  refine ⟨rfl, ?_⟩
  exact c6_no_sentinel_finalization [strL "hello ", strL "world"] rfl

/-- Claim C9 (confirmed): if the session identifier is absent (or empty, which
is equally falsy in JS) or the question is empty or whitespace-only, the ask
operation returns with the state exactly unchanged — no message appended, no
loading state — and no network request is issued. -/
theorem c9_guard_atomicity (sid : Option Str) (outcome : Outcome) (st : ChatState)
    (h : jsFalsy sid = true ∨ jsTrim st.question = []) :
    handleAsk sid outcome st = ⟨st, false⟩ := by
  unfold handleAsk
  rcases h with h | h
  · rw [if_pos h]
  · by_cases h2 : jsFalsy sid = true
    · rw [if_pos h2]
    · rw [if_neg h2, if_pos h]

/-- Witness for C9 with an absent session identifier. -/
theorem c9_witness :
    (jsFalsy none = true ∨ jsTrim (strL "hi") = []) ∧
    handleAsk none (Outcome.ok []) ⟨[], false, strL "hi"⟩ =
      ⟨⟨[], false, strL "hi"⟩, false⟩ :=
  ⟨Or.inl rfl, c9_guard_atomicity none (Outcome.ok []) ⟨[], false, strL "hi"⟩ (Or.inl rfl)⟩

/-- Counterexample to claim C1: delivering
`"A---__CITATIONS__---[\"x\"]"` in one chunk yields citations `["x"]`, but
splitting the same bytes right after the sentinel yields empty citations: the
read loop exits at the chunk in which the sentinel completes and never reads
the chunk carrying the payload, so the final snapshots differ. -/
theorem c1_counterexample :
    strL "A---__CITATIONS__---" ++ strL "[\"x\"]" = strL "A---__CITATIONS__---[\"x\"]" ∧
    finalSnap [strL "A---__CITATIONS__---", strL "[\"x\"]"] ≠
      finalSnap [strL "A---__CITATIONS__---[\"x\"]"] := by
  refine ⟨rfl, ?_⟩
  intro h
  have h1 : finalSnap [strL "A---__CITATIONS__---", strL "[\"x\"]"] =
      ⟨strL "A", emptyCits⟩ := rfl
  have h2 : finalSnap [strL "A---__CITATIONS__---[\"x\"]"] =
      ⟨strL "A", Json.arr [Json.str (strL "x")]⟩ := rfl
  rw [h1, h2] at h
  simp [emptyCits] at h

/-- Claim C1 as amended: splitting the input into two chunks yields the
identical final snapshot as single-chunk delivery whenever the first chunk
does not already contain the complete sentinel (in particular, for every
split point inside the sentinel token).  When the first chunk does contain
the complete sentinel, later chunks are discarded, not appended to the
citation suffix (see the counterexample). -/
theorem c1_amended_chunking (s1 s2 : Str) (h : hasSeq sentinel s1 = false) :
    finalSnap [s1, s2] = finalSnap [s1 ++ s2] := by
  unfold finalSnap
  simp only [readLoopAux, List.nil_append]
  rw [if_neg (by simp [h])]

/-- Witness for the amended C1: a split inside the sentinel token. -/
theorem c1_witness :
    hasSeq sentinel (strL "The answer is 42.---__CIT") = false ∧
    finalSnap [strL "The answer is 42.---__CIT",
               strL "ATIONS__---[\x7b\"source\":\"doc.pdf\",\"page\":3,\"preview\":\"...\"\x7d]"] =
      finalSnap [strL "The answer is 42.---__CIT" ++
               strL "ATIONS__---[\x7b\"source\":\"doc.pdf\",\"page\":3,\"preview\":\"...\"\x7d]"] :=
  ⟨rfl, c1_amended_chunking _ _ rfl⟩

/-- For a chunk sequence with no sentinel, the emitted snapshot sequence is
exactly the running buffers (with empty citations) bracketed by the creation
snapshot and the final snapshot. -/
theorem snapshots_noSeq (chunks : List Str)
    (h : hasSeq sentinel (concatStr chunks) = false) :
    snapshots chunks = (([] :: accBuffers [] chunks) ++ [concatStr chunks]).map
      (fun t => (⟨t, emptyCits⟩ : Snapshot)) := by
  unfold snapshots finalSnap
  rw [readLoop_noSeq chunks [] (by simpa using h)]
  simp [finalCitations]

/-- Counterexample to claim C3: with the sentinel-free chunks `["a", ""]` (a
chunk decodes to the empty string, e.g. when a read carries only part of a
multi-byte character) two consecutive snapshots before finalization have
equal text, so the textual content length does not strictly increase. -/
theorem c3_counterexample :
    hasSeq sentinel (concatStr [strL "a", ([] : Str)]) = false ∧
    ¬ List.Chain' (fun a b : Snapshot => a.text.length < b.text.length)
        ((snapshots [strL "a", ([] : Str)]).dropLast) := by
  refine ⟨rfl, ?_⟩
  intro hch
  have he : (snapshots [strL "a", ([] : Str)]).dropLast =
      [⟨[], emptyCits⟩, ⟨strL "a", emptyCits⟩, ⟨strL "a", emptyCits⟩] := rfl
  rw [he] at hch
  rcases List.chain'_cons.mp hch with ⟨_, hch2⟩
  rcases List.chain'_cons.mp hch2 with ⟨hlt, _⟩
  simp [strL] at hlt

/-- Claim C3 as amended: for every chunk sequence without the sentinel, each
successive emitted snapshot's text is a prefix-extension of the previous one,
and the textual content length strictly increases until finalization provided
every decoded chunk is nonempty. -/
theorem c3_amended_monotonic_growth (chunks : List Str)
    (h : hasSeq sentinel (concatStr chunks) = false) :
    List.Chain' (fun a b : Snapshot => extOf a.text b.text) (snapshots chunks) ∧
    ((∀ c ∈ chunks, c ≠ []) →
      List.Chain' (fun a b : Snapshot => a.text.length < b.text.length)
        ((snapshots chunks).dropLast)) := by
  constructor
  · rw [snapshots_noSeq chunks h, List.chain'_map]
    exact accBuffers_chain_ext chunks []
  · intro hne
    rw [snapshots_noSeq chunks h]
    simp only [List.map_append, List.map_cons, List.map_nil, List.dropLast_concat]
    show List.Chain' (fun a b : Snapshot => a.text.length < b.text.length)
      (List.map (fun t => (⟨t, emptyCits⟩ : Snapshot)) ([] :: accBuffers [] chunks))
    rw [List.chain'_map]
    exact accBuffers_chain_lt chunks [] hne

/-- Witness for the amended C3 at the nonempty chunks `["ab", "c"]`. -/
theorem c3_witness :
    hasSeq sentinel (concatStr [strL "ab", strL "c"]) = false ∧
    List.Chain' (fun a b : Snapshot => extOf a.text b.text) (snapshots [strL "ab", strL "c"]) ∧
    List.Chain' (fun a b : Snapshot => a.text.length < b.text.length)
      ((snapshots [strL "ab", strL "c"]).dropLast) :=
  ⟨rfl, (c3_amended_monotonic_growth [strL "ab", strL "c"] rfl).1,
   (c3_amended_monotonic_growth [strL "ab", strL "c"] rfl).2 (by decide)⟩

/-- Counterexample to claim C4: for an input with two sentinel occurrences the
captured citation payload is only the segment between the first and second
occurrences; the second occurrence and the text after it are dropped by the
split, not kept as literal text inside the payload as the claim states. -/
theorem c4_counterexample :
    (readLoopAux [strL "A---__CITATIONS__---[\"x\"]---__CITATIONS__---junk"] []).text
      = strL "A" ∧
    (readLoopAux [strL "A---__CITATIONS__---[\"x\"]---__CITATIONS__---junk"] []).citationsData
      = strL "[\"x\"]" ∧
    (readLoopAux [strL "A---__CITATIONS__---[\"x\"]---__CITATIONS__---junk"] []).citationsData
      ≠ jsTrim (strL "[\"x\"]---__CITATIONS__---junk") := by
  refine ⟨rfl, rfl, ?_⟩
  decide

/-- Claim C4 as amended: the split happens at the first occurrence only (the
answer text is the portion before it), the citation payload is the trimmed
segment strictly between the first and second occurrences, and the second and
later occurrences together with the text after them are discarded: the final
snapshot is the same as if the input had ended before the second occurrence. -/
theorem c4_amended_first_wins_rest_discarded (a b c : Str)
    (h1 : jsSplit (a ++ sentinel ++ b ++ sentinel ++ c) = [a, b, c])
    (h2 : jsSplit (a ++ sentinel ++ b) = [a, b]) :
    (readLoopAux [a ++ sentinel ++ b ++ sentinel ++ c] []).text = a ∧
    (readLoopAux [a ++ sentinel ++ b ++ sentinel ++ c] []).citationsData = jsTrim b ∧
    finalSnap [a ++ sentinel ++ b ++ sentinel ++ c] = finalSnap [a ++ sentinel ++ b] := by
  have hs1 : hasSeq sentinel (a ++ sentinel ++ b ++ sentinel ++ c) = true := by
    cases hv : hasSeq sentinel (a ++ sentinel ++ b ++ sentinel ++ c) with
    | true => rfl
    | false =>
      have he := jsSplit_noSeq _ hv
      rw [h1] at he
      exact absurd (congrArg List.length he) (by simp)
  have hs2 : hasSeq sentinel (a ++ sentinel ++ b) = true := by
    cases hv : hasSeq sentinel (a ++ sentinel ++ b) with
    | true => rfl
    | false =>
      have he := jsSplit_noSeq _ hv
      rw [h2] at he
      exact absurd (congrArg List.length he) (by simp)
  have eL := readLoop_single_found _ hs1
  have eR := readLoop_single_found _ hs2
  refine ⟨?_, ?_, ?_⟩
  · rw [eL, h1]
    rfl
  · rw [eL, h1]
    rfl
  · unfold finalSnap
    rw [eL, eR, h1, h2]
    rfl

/-- Witness for the amended C4 at the segments `"A"`, `"B"`, `"C"`. -/
theorem c4_witness :
    jsSplit (strL "A" ++ sentinel ++ strL "B" ++ sentinel ++ strL "C") =
      [strL "A", strL "B", strL "C"] ∧
    (readLoopAux [strL "A" ++ sentinel ++ strL "B" ++ sentinel ++ strL "C"] []).text = strL "A" ∧
    (readLoopAux [strL "A" ++ sentinel ++ strL "B" ++ sentinel ++ strL "C"] []).citationsData =
      jsTrim (strL "B") ∧
    finalSnap [strL "A" ++ sentinel ++ strL "B" ++ sentinel ++ strL "C"] =
      finalSnap [strL "A" ++ sentinel ++ strL "B"] :=
  ⟨rfl, c4_amended_first_wins_rest_discarded (strL "A") (strL "B") (strL "C") rfl rfl⟩

/-- Claim C5 (confirmed): when the trimmed text after the sentinel is not
valid JSON, the turn still finalizes successfully: the final assistant
message carries the prefix text (the portion before the first sentinel
occurrence, as the last conjunct certifies) and an empty citation list, no
error entry is appended, and the loading flag is cleared. -/
theorem c5_malformed_payload (sid : Str) (st : ChatState) (s : Str)
    (hsid : jsFalsy (some sid) = false)
    (hq : ¬ jsTrim st.question = [])
    (hs : hasSeq sentinel s = true)
    (hp : parseJson (jsTrim ((jsSplit s).getD 1 [])) = none) :
    (handleAsk (some sid) (Outcome.ok [s]) st).state.messages =
      st.messages ++ [⟨strL "You", st.question, emptyCits⟩,
        ⟨strL "AI", (jsSplit s).headD [], emptyCits⟩] ∧
    (handleAsk (some sid) (Outcome.ok [s]) st).state.loading = false ∧
    (∃ t : Str, (jsSplit s).headD [] ++ sentinel ++ t = s) := by
  have hok := handleAsk_ok sid st [s] hsid hq
  have eL := readLoop_single_found s hs
  have hcit : (finalCitations (jsTrim ((jsSplit s).getD 1 []))).1 = emptyCits := by
    unfold finalCitations
    by_cases hz : jsTrim ((jsSplit s).getD 1 []) = []
    · rw [if_pos hz]
    · rw [if_neg hz, hp]
  refine ⟨?_, ?_, jsSplit_head s hs⟩
  · rw [hok]
    simp only [eL]
    rw [hcit]
  · rw [hok]

/-- Witness for C5 at the input `"Answer---__CITATIONS__---not valid json"`. -/
theorem c5_witness :
    hasSeq sentinel (strL "Answer---__CITATIONS__---not valid json") = true ∧
    parseJson (jsTrim ((jsSplit (strL "Answer---__CITATIONS__---not valid json")).getD 1 [])) =
      none ∧
    (handleAsk (some (strL "abc"))
        (Outcome.ok [strL "Answer---__CITATIONS__---not valid json"])
        ⟨[], false, strL "q"⟩).state.messages =
      [⟨strL "You", strL "q", emptyCits⟩, ⟨strL "AI", strL "Answer", emptyCits⟩] := by
  refine ⟨rfl, rfl, ?_⟩
  exact (c5_malformed_payload (strL "abc") ⟨[], false, strL "q"⟩
    (strL "Answer---__CITATIONS__---not valid json") rfl (by decide) rfl rfl).1

/-- Claim C7 (confirmed): on a transport failure — mid-stream read error,
thrown network error, non-success HTTP status, or missing body — the message
list keeps all prior content unchanged (for a mid-stream failure, the bot
entry retains the last emitted snapshot text, the full text delivered before
the failure) and a distinct error entry is appended rather than replacing or
deleting anything. -/
theorem c7_transport_failure_preserved (sid : Str) (st : ChatState)
    (delivered : List Str) (m : Str) (status : Nat) (body : Str)
    (hsid : jsFalsy (some sid) = false) (hq : ¬ jsTrim st.question = [])
    (hnf : hasSeq sentinel (concatStr delivered) = false) :
    (handleAsk (some sid) (Outcome.readErr delivered m) st).state.messages =
      st.messages ++ [⟨strL "You", st.question, emptyCits⟩,
        ⟨strL "AI", concatStr delivered, emptyCits⟩, errEntry m] ∧
    (handleAsk (some sid) (Outcome.netErr m) st).state.messages =
      st.messages ++ [⟨strL "You", st.question, emptyCits⟩, errEntry m] ∧
    (handleAsk (some sid) (Outcome.httpErr status body) st).state.messages =
      st.messages ++ [⟨strL "You", st.question, emptyCits⟩,
        errEntry (strL "Server error: " ++ strL (Nat.repr status) ++ strL " - " ++ body)] ∧
    (handleAsk (some sid) Outcome.noBody st).state.messages =
      st.messages ++ [⟨strL "You", st.question, emptyCits⟩,
        errEntry (strL "No response body")] := by
  have he : (readLoopAux delivered []).emitted.getLastD [] = concatStr delivered := by
    rw [readLoop_noSeq delivered [] (by simpa using hnf)]
    simpa using accBuffers_getLastD delivered []
  refine ⟨?_, ?_, ?_, ?_⟩
  · rw [handleAsk_readErr sid st delivered m hsid hq]
    simp only [he]
  · rw [handleAsk_netErr sid st m hsid hq]
  · rw [handleAsk_httpErr sid st status body hsid hq]
  · rw [handleAsk_noBody sid st hsid hq]

/-- Witness for C7: a mid-stream read error after two chunks, with one prior
message in the list. -/
theorem c7_witness :
    jsFalsy (some (strL "s1")) = false ∧
    ¬ jsTrim (strL "q2") = [] ∧
    hasSeq sentinel (concatStr [strL "par", strL "tial"]) = false ∧
    (handleAsk (some (strL "s1")) (Outcome.readErr [strL "par", strL "tial"] (strL "reset"))
        ⟨[⟨strL "You", strL "old", emptyCits⟩], false, strL "q2"⟩).state.messages =
      [⟨strL "You", strL "old", emptyCits⟩] ++
        [⟨strL "You", strL "q2", emptyCits⟩,
         ⟨strL "AI", concatStr [strL "par", strL "tial"], emptyCits⟩,
         errEntry (strL "reset")] := by
  refine ⟨rfl, by decide, rfl, ?_⟩
  exact (c7_transport_failure_preserved (strL "s1")
    ⟨[⟨strL "You", strL "old", emptyCits⟩], false, strL "q2"⟩
    [strL "par", strL "tial"] (strL "reset") 500 (strL "oops") rfl (by decide) rfl).1

/-- Claim C8 (confirmed): every snapshot of the assistant message except the
final one carries an empty citation list, and the sequence ends with the
single finalization snapshot — the only point at which citations are ever
assigned. -/
theorem c8_citations_write_once (chunks : List Str) :
    ((snapshots chunks).dropLast).map Snapshot.citations =
      List.replicate ((snapshots chunks).dropLast).length emptyCits ∧
    (snapshots chunks).getLast? = some (finalSnap chunks) := by
  constructor
  · simp only [snapshots]
    rw [List.dropLast_concat]
    simp [List.map_map, Function.comp_def, List.replicate_succ]
  · simp only [snapshots]
    rw [List.getLast?_concat]

/-- Claim C10 (confirmed): the stored citation payload is always in trimmed
form (trimming it again changes nothing, i.e. it was trimmed before any parse
could see it), and when it is empty the finalization returns the empty
citation list with the parse-attempted flag false — no parse is attempted. -/
theorem c10_payload_trimmed (chunks : List Str) :
    jsTrim (readLoopAux chunks []).citationsData =
      (readLoopAux chunks []).citationsData ∧
    ((readLoopAux chunks []).citationsData = [] →
      finalCitations (readLoopAux chunks []).citationsData = (emptyCits, false)) := by
  refine ⟨readLoop_cd_trim chunks [], ?_⟩
  intro h
  rw [h]
  rfl

/-- Witness for C10: a payload that trims to the empty string. -/
theorem c10_witness :
    jsTrim (readLoopAux [strL "x---__CITATIONS__--- "] []).citationsData =
      (readLoopAux [strL "x---__CITATIONS__--- "] []).citationsData ∧
    finalCitations (readLoopAux [strL "x---__CITATIONS__--- "] []).citationsData =
      (emptyCits, false) :=
  ⟨(c10_payload_trimmed [strL "x---__CITATIONS__--- "]).1,
   (c10_payload_trimmed [strL "x---__CITATIONS__--- "]).2 rfl⟩
